import Mathlib

/-!
Shallow embedding, over the real numbers, of the elliptical arc module of
the repository (the functions convertArcParams and arcBound together with
their value types and the helpers norm and angle).

Modelling conventions:
* JavaScript numbers are idealized as real numbers; every intermediate
  value of the source is given its own definition so that statements can
  refer to them.
* The JavaScript remainder operator on numbers is jsRem below (truncated
  division, result takes the sign of the dividend).
* The source relies on the limiting behaviour of division by zero and of
  Math.atan at infinite arguments inside arcBound (tanPhi can be an
  infinity there, as the comment in the source explains).  In the real
  embedding those limits are written as explicit case splits in
  thetaExtremaX and thetaExtremaY, with the value the JavaScript code
  obtains through the infinities.
* Real division by zero is a junk value (0) in Lean while it is an
  infinity or NaN in JavaScript.  The predicate ConvDefined below records,
  for the main branch of convertArcParams, that no division by zero and no
  out-of-range Math.acos argument occurs, i.e. that the JavaScript run
  produces no NaN and no infinite component; BoundDefined does the same
  for arcBound.
-/

namespace ArcBound

noncomputable section

open Classical
open Real

/-- Truncation toward zero, the rounding used by the JavaScript remainder
operator on numbers. -/
def realTrunc (x : ℝ) : ℝ :=
  if 0 ≤ x then (⌊x⌋ : ℝ) else (⌈x⌉ : ℝ)

/-- The JavaScript remainder a % b on real operands: the result takes the
sign of the dividend.  The source applies it as rotation % 180. -/
def jsRem (a b : ℝ) : ℝ := a - b * realTrunc (a / b)

structure Point where
  x : ℝ
  y : ℝ

structure Vector where
  x : ℝ
  y : ℝ

structure Rect where
  left : ℝ
  right : ℝ
  top : ℝ
  bottom : ℝ

structure Arc where
  start : Point
  «end» : Point
  rx : ℝ
  ry : ℝ
  rotation : ℝ
  largeArc : Bool
  sweep : Bool

structure ArcAlt where
  phi : ℝ
  rx : ℝ
  ry : ℝ
  cx : ℝ
  cy : ℝ
  theta1 : ℝ
  dtheta : ℝ

/-- Euclidean norm of a vector; translation of the function norm of the
source. -/
def norm (v : Vector) : ℝ := Real.sqrt (v.x * v.x + v.y * v.y)

/-- Signed angle between two vectors; translation of the function angle of
the source.  The magnitude is the arccosine of the normalized dot product
and the sign comes from the cross product. -/
def angle (u v : Vector) : ℝ :=
  (if u.x * v.y - u.y * v.x < 0 then -1 else 1) *
    Real.arccos ((u.x * v.x + u.y * v.y) / (norm u * norm v))

/-- The rotation angle in radians: rotation % 180 / 180 * Math.PI. -/
def phi (arc : Arc) : ℝ := jsRem arc.rotation 180 / 180 * Real.pi

/-- Half difference of the x coordinates of the endpoints. -/
def dx2 (arc : Arc) : ℝ := (arc.start.x - arc.«end».x) / 2

/-- Half difference of the y coordinates of the endpoints. -/
def dy2 (arc : Arc) : ℝ := (arc.start.y - arc.«end».y) / 2

/-- The half difference vector rotated into the local frame, x component. -/
def x1p (arc : Arc) : ℝ :=
  Real.cos (phi arc) * dx2 arc + Real.sin (phi arc) * dy2 arc

/-- The half difference vector rotated into the local frame, y component. -/
def y1p (arc : Arc) : ℝ :=
  -Real.sin (phi arc) * dx2 arc + Real.cos (phi arc) * dy2 arc

/-- Absolute value of the input x radius (the source reassigns rx). -/
def rxA (arc : Arc) : ℝ := |arc.rx|

/-- Absolute value of the input y radius (the source reassigns ry). -/
def ryA (arc : Arc) : ℝ := |arc.ry|

/-- The quantity sqrt(x1p^2 / rx^2 + y1p^2 / ry^2) used to detect
out-of-range radii. -/
def sqrtLambda (arc : Arc) : ℝ :=
  Real.sqrt (x1p arc * x1p arc / (rxA arc * rxA arc)
    + y1p arc * y1p arc / (ryA arc * ryA arc))

/-- The corrected x radius: scaled up by sqrtLambda when the given radii
are too small. -/
def rxC (arc : Arc) : ℝ :=
  if 1 < sqrtLambda arc then sqrtLambda arc * rxA arc else rxA arc

/-- The corrected y radius: scaled up by sqrtLambda when the given radii
are too small. -/
def ryC (arc : Arc) : ℝ :=
  if 1 < sqrtLambda arc then sqrtLambda arc * ryA arc else ryA arc

/-- The radicand of the center factor, clamped at zero as in the source. -/
def cFactorA (arc : Arc) : ℝ :=
  max 0 (rxC arc * rxC arc * (ryC arc * ryC arc)
    - rxC arc * rxC arc * (y1p arc * y1p arc)
    - ryC arc * ryC arc * (x1p arc * x1p arc))

/-- The denominator rx^2 y1p^2 + ry^2 x1p^2 of the center factor. -/
def cDenom (arc : Arc) : ℝ :=
  rxC arc * rxC arc * (y1p arc * y1p arc)
    + ryC arc * ryC arc * (x1p arc * x1p arc)

/-- The signed center factor; largeArc equal to sweep selects the negative
root. -/
def cFactor (arc : Arc) : ℝ :=
  Real.sqrt (cFactorA arc / cDenom arc) *
    (if arc.largeArc = arc.sweep then -1 else 1)

/-- Center of the ellipse in the local frame, x component. -/
def cxp (arc : Arc) : ℝ := cFactor arc * rxC arc * y1p arc / ryC arc

/-- Center of the ellipse in the local frame, y component. -/
def cyp (arc : Arc) : ℝ := -cFactor arc * ryC arc * x1p arc / rxC arc

/-- Center of the ellipse in the original frame, x component. -/
def cx (arc : Arc) : ℝ :=
  Real.cos (phi arc) * cxp arc - Real.sin (phi arc) * cyp arc
    + (arc.start.x + arc.«end».x) / 2

/-- Center of the ellipse in the original frame, y component. -/
def cy (arc : Arc) : ℝ :=
  Real.sin (phi arc) * cxp arc + Real.cos (phi arc) * cyp arc
    + (arc.start.y + arc.«end».y) / 2

/-- Radius-normalized vector from the center to the start point in the
local frame. -/
def vec1 (arc : Arc) : Vector :=
  ⟨(x1p arc - cxp arc) / rxC arc, (y1p arc - cyp arc) / ryC arc⟩

/-- Radius-normalized vector from the center to the end point in the local
frame. -/
def vec2 (arc : Arc) : Vector :=
  ⟨(-x1p arc - cxp arc) / rxC arc, (-y1p arc - cyp arc) / ryC arc⟩

/-- The start angle theta1 of the main branch. -/
def theta1 (arc : Arc) : ℝ := angle ⟨1, 0⟩ (vec1 arc)

/-- The delta angle before the sweep direction correction. -/
def dthetaRaw (arc : Arc) : ℝ := angle (vec1 arc) (vec2 arc)

/-- The delta angle after the sweep direction correction. -/
def dtheta (arc : Arc) : ℝ :=
  if arc.sweep = false ∧ 0 < dthetaRaw arc then dthetaRaw arc - 2 * Real.pi
  else if arc.sweep = true ∧ dthetaRaw arc < 0 then dthetaRaw arc + 2 * Real.pi
  else dthetaRaw arc

/-- Translation of convertArcParams: endpoint parameterization to center
parameterization, with the degenerate zero-radius branch first. -/
def convertArcParams (arc : Arc) : ArcAlt :=
  if arc.rx = 0 ∨ arc.ry = 0 then
    { phi := phi arc, rx := arc.rx, ry := arc.ry,
      cx := (arc.start.x + arc.«end».x) / 2,
      cy := (arc.start.y + arc.«end».y) / 2,
      theta1 := 0, dtheta := Real.pi }
  else
    { phi := phi arc, rx := rxC arc, ry := ryC arc,
      cx := cx arc, cy := cy arc,
      theta1 := theta1 arc, dtheta := dtheta arc }

/-- The representative angle at which x is stationary on the ellipse.
In the source this is Math.atan(-ry / rx * tanPhi) where
tanPhi = sinPhi / cosPhi; when cosPhi is zero tanPhi is a JavaScript
infinity with the sign of sinPhi and the atan of the resulting infinity is
a quarter turn, written here as an explicit case. -/
def thetaExtremaX (arc : Arc) : ℝ :=
  let p := convertArcParams arc
  let sinPhi := Real.sin p.phi
  let cosPhi := Real.cos p.phi
  if cosPhi = 0 then (if 0 < sinPhi then -(Real.pi / 2) else Real.pi / 2)
  else Real.arctan (-p.ry / p.rx * (sinPhi / cosPhi))

/-- The representative angle at which y is stationary on the ellipse.
In the source this is Math.atan(ry / rx / tanPhi); when cosPhi is zero
tanPhi is infinite and the quotient is zero, and when sinPhi is zero the
quotient is an infinity whose sign is the sign of cosPhi, giving a quarter
turn through Math.atan, written here as explicit cases. -/
def thetaExtremaY (arc : Arc) : ℝ :=
  let p := convertArcParams arc
  let sinPhi := Real.sin p.phi
  let cosPhi := Real.cos p.phi
  if cosPhi = 0 then 0
  else if sinPhi = 0 then (if 0 < cosPhi then Real.pi / 2 else -(Real.pi / 2))
  else Real.arctan (p.ry / p.rx / (sinPhi / cosPhi))

/-- The five periodic offsets tried for each stationary angle. -/
def offsets : List ℝ := [-(2 * Real.pi), -Real.pi, 0, Real.pi, 2 * Real.pi]

/-- The body of the candidate loop for x: the x coordinate on the ellipse
at the offset stationary angle, when its normalized position lies strictly
inside the traversed span. -/
def xCandidate (arc : Arc) (offset : ℝ) : Option ℝ :=
  let p := convertArcParams arc
  let thetaX := thetaExtremaX arc + offset
  let ratioX := (thetaX - p.theta1) / p.dtheta
  if 0 < ratioX ∧ ratioX < 1 then
    some (p.rx * Real.cos p.phi * Real.cos thetaX
      - p.ry * Real.sin p.phi * Real.sin thetaX + p.cx)
  else none

/-- The body of the candidate loop for y: the y coordinate on the ellipse
at the offset stationary angle, when its normalized position lies strictly
inside the traversed span. -/
def yCandidate (arc : Arc) (offset : ℝ) : Option ℝ :=
  let p := convertArcParams arc
  let thetaY := thetaExtremaY arc + offset
  let ratioY := (thetaY - p.theta1) / p.dtheta
  if 0 < ratioY ∧ ratioY < 1 then
    some (p.rx * Real.sin p.phi * Real.cos thetaY
      + p.ry * Real.cos p.phi * Real.sin thetaY + p.cy)
  else none

/-- The candidate x extrema: both endpoint x coordinates, and the x value
at every offset stationary angle that lies strictly inside the traversed
span. -/
def extremaXs (arc : Arc) : List ℝ :=
  [arc.start.x, arc.«end».x] ++ offsets.filterMap (xCandidate arc)

/-- The candidate y extrema: both endpoint y coordinates, and the y value
at every offset stationary angle that lies strictly inside the traversed
span. -/
def extremaYs (arc : Arc) : List ℝ :=
  [arc.start.y, arc.«end».y] ++ offsets.filterMap (yCandidate arc)

/-- Minimum of a list of reals; the candidate lists of arcBound are always
nonempty, so the value on the empty list is irrelevant. -/
def listMin : List ℝ → ℝ
  | [] => 0
  | x :: xs => xs.foldl min x

/-- Maximum of a list of reals; the candidate lists of arcBound are always
nonempty, so the value on the empty list is irrelevant. -/
def listMax : List ℝ → ℝ
  | [] => 0
  | x :: xs => xs.foldl max x

/-- Translation of arcBound: the axis-aligned bounding rectangle of the
arc, with the degenerate fast path first. -/
def arcBound (arc : Arc) : Rect :=
  if arc.rx = 0 ∨ arc.ry = 0 ∨
      (arc.start.x = arc.«end».x ∧ arc.start.y = arc.«end».y) then
    { left := min arc.start.x arc.«end».x,
      right := max arc.start.x arc.«end».x,
      top := min arc.start.y arc.«end».y,
      bottom := max arc.start.y arc.«end».y }
  else
    { left := listMin (extremaXs arc), right := listMax (extremaXs arc),
      top := listMin (extremaYs arc), bottom := listMax (extremaYs arc) }

/-- Definedness of convertArcParams under JavaScript number semantics:
either the degenerate branch is taken, or every division of the main
branch has a nonzero denominator and every Math.acos argument stays inside
the closed unit interval, so that the JavaScript evaluation produces no
NaN and no infinite component. -/
def ConvDefined (arc : Arc) : Prop :=
  arc.rx = 0 ∨ arc.ry = 0 ∨
    (cDenom arc ≠ 0 ∧ rxC arc ≠ 0 ∧ ryC arc ≠ 0 ∧
      norm (vec1 arc) ≠ 0 ∧ norm (vec2 arc) ≠ 0 ∧
      |(1 : ℝ) * (vec1 arc).x + 0 * (vec1 arc).y|
        ≤ norm ⟨1, 0⟩ * norm (vec1 arc) ∧
      |(vec1 arc).x * (vec2 arc).x + (vec1 arc).y * (vec2 arc).y|
        ≤ norm (vec1 arc) * norm (vec2 arc))

/-- Definedness of arcBound under JavaScript number semantics: either the
degenerate fast path is taken, or the inner convertArcParams call is
defined, the corrected radius divisor is nonzero and the ratio divisor
dtheta is nonzero. -/
def BoundDefined (arc : Arc) : Prop :=
  (arc.rx = 0 ∨ arc.ry = 0 ∨
      (arc.start.x = arc.«end».x ∧ arc.start.y = arc.«end».y)) ∨
    (ConvDefined arc ∧ (convertArcParams arc).rx ≠ 0 ∧
      (convertArcParams arc).dtheta ≠ 0)

theorem realTrunc_zero : realTrunc 0 = 0 := by
  simp [realTrunc]

theorem jsRem_zero (b : ℝ) : jsRem 0 b = 0 := by
  simp [jsRem, realTrunc]

theorem phi_of_rotation_zero (arc : Arc) (h : arc.rotation = 0) : phi arc = 0 := by
  simp [phi, h, jsRem, realTrunc]

theorem convertArcParams_degen_eq (arc : Arc) (h : arc.rx = 0 ∨ arc.ry = 0) :
    convertArcParams arc =
      { phi := phi arc, rx := arc.rx, ry := arc.ry,
        cx := (arc.start.x + arc.«end».x) / 2,
        cy := (arc.start.y + arc.«end».y) / 2,
        theta1 := 0, dtheta := Real.pi } := by
  unfold convertArcParams
  rw [if_pos h]

theorem convertArcParams_main_eq (arc : Arc) (h : ¬(arc.rx = 0 ∨ arc.ry = 0)) :
    convertArcParams arc =
      { phi := phi arc, rx := rxC arc, ry := ryC arc,
        cx := cx arc, cy := cy arc,
        theta1 := theta1 arc, dtheta := dtheta arc } := by
  unfold convertArcParams
  rw [if_neg h]

theorem foldl_min_le_init (l : List ℝ) (a : ℝ) : l.foldl min a ≤ a := by
  induction l generalizing a with
  | nil => exact le_refl a
  | cons b t ih => exact le_trans (ih (min a b)) (min_le_left a b)

theorem le_foldl_max_init (l : List ℝ) (a : ℝ) : a ≤ l.foldl max a := by
  induction l generalizing a with
  | nil => exact le_refl a
  | cons b t ih => exact le_trans (le_max_left a b) (ih (max a b))

theorem foldl_min_le (l : List ℝ) (a x : ℝ) (h : x = a ∨ x ∈ l) :
    l.foldl min a ≤ x := by
  induction l generalizing a with
  | nil =>
    rcases h with h | h
    · exact h ▸ le_refl a
    · cases h
  | cons b t ih =>
    show t.foldl min (min a b) ≤ x
    rcases h with h | h
    · exact le_trans (le_trans (foldl_min_le_init t (min a b)) (min_le_left a b)) h.ge
    · rcases List.mem_cons.mp h with h | h
      · exact le_trans (le_trans (foldl_min_le_init t (min a b)) (min_le_right a b)) h.ge
      · exact ih (min a b) (Or.inr h)

theorem le_foldl_max (l : List ℝ) (a x : ℝ) (h : x = a ∨ x ∈ l) :
    x ≤ l.foldl max a := by
  induction l generalizing a with
  | nil =>
    rcases h with h | h
    · exact h ▸ le_refl a
    · cases h
  | cons b t ih =>
    show x ≤ t.foldl max (max a b)
    rcases h with h | h
    · exact le_trans h.le (le_trans (le_max_left a b) (le_foldl_max_init t (max a b)))
    · rcases List.mem_cons.mp h with h | h
      · exact le_trans h.le (le_trans (le_max_right a b) (le_foldl_max_init t (max a b)))
      · exact ih (max a b) (Or.inr h)

theorem listMin_le_of_mem {x : ℝ} {l : List ℝ} (h : x ∈ l) : listMin l ≤ x := by
  cases l with
  | nil => cases h
  | cons a t =>
    show t.foldl min a ≤ x
    exact foldl_min_le t a x (List.mem_cons.mp h)

theorem le_listMax_of_mem {x : ℝ} {l : List ℝ} (h : x ∈ l) : x ≤ listMax l := by
  cases l with
  | nil => cases h
  | cons a t =>
    show x ≤ t.foldl max a
    exact le_foldl_max t a x (List.mem_cons.mp h)

theorem start_x_mem_extremaXs (arc : Arc) : arc.start.x ∈ extremaXs arc := by
  simp [extremaXs]

theorem end_x_mem_extremaXs (arc : Arc) : arc.«end».x ∈ extremaXs arc := by
  simp [extremaXs]

theorem start_y_mem_extremaYs (arc : Arc) : arc.start.y ∈ extremaYs arc := by
  simp [extremaYs]

theorem end_y_mem_extremaYs (arc : Arc) : arc.«end».y ∈ extremaYs arc := by
  simp [extremaYs]

/-- C3: for every arc with rx = 0 or ry = 0, convertArcParams returns
exactly theta1 = 0 and dtheta = pi, and the center equal to the midpoint
of the start and end points. -/
theorem convertArcParams_degenerate (arc : Arc) (h : arc.rx = 0 ∨ arc.ry = 0) :
    (convertArcParams arc).theta1 = 0 ∧
    (convertArcParams arc).dtheta = Real.pi ∧
    (convertArcParams arc).cx = (arc.start.x + arc.«end».x) / 2 ∧
    (convertArcParams arc).cy = (arc.start.y + arc.«end».y) / 2 := by
  rw [convertArcParams_degen_eq arc h]
  exact ⟨rfl, rfl, rfl, rfl⟩

/-- Witness for C3 at the arc from (0,0) to (2,0) with rx = 0, ry = 1. -/
theorem convertArcParams_degenerate_witness :
    (convertArcParams ⟨⟨0, 0⟩, ⟨2, 0⟩, 0, 1, 0, false, false⟩).theta1 = 0 ∧
    (convertArcParams ⟨⟨0, 0⟩, ⟨2, 0⟩, 0, 1, 0, false, false⟩).dtheta = Real.pi ∧
    (convertArcParams ⟨⟨0, 0⟩, ⟨2, 0⟩, 0, 1, 0, false, false⟩).cx = ((0 : ℝ) + 2) / 2 ∧
    (convertArcParams ⟨⟨0, 0⟩, ⟨2, 0⟩, 0, 1, 0, false, false⟩).cy = ((0 : ℝ) + 0) / 2 :=
  convertArcParams_degenerate ⟨⟨0, 0⟩, ⟨2, 0⟩, 0, 1, 0, false, false⟩ (Or.inl rfl)

/-- C6: for every arc with rx = 0, ry = 0, or start equal to end, arcBound
returns exactly the bounding box of the two endpoints alone. -/
theorem arcBound_degenerate (arc : Arc)
    (h : arc.rx = 0 ∨ arc.ry = 0 ∨
      (arc.start.x = arc.«end».x ∧ arc.start.y = arc.«end».y)) :
    (arcBound arc).left = min arc.start.x arc.«end».x ∧
    (arcBound arc).right = max arc.start.x arc.«end».x ∧
    (arcBound arc).top = min arc.start.y arc.«end».y ∧
    (arcBound arc).bottom = max arc.start.y arc.«end».y := by
  unfold arcBound
  rw [if_pos h]
  exact ⟨rfl, rfl, rfl, rfl⟩

/-- Witness for C6 at the point arc from (1,2) to (1,2) with rx = 3,
ry = 4. -/
theorem arcBound_degenerate_witness :
    (arcBound ⟨⟨1, 2⟩, ⟨1, 2⟩, 3, 4, 0, false, false⟩).left = min (1 : ℝ) 1 ∧
    (arcBound ⟨⟨1, 2⟩, ⟨1, 2⟩, 3, 4, 0, false, false⟩).right = max (1 : ℝ) 1 ∧
    (arcBound ⟨⟨1, 2⟩, ⟨1, 2⟩, 3, 4, 0, false, false⟩).top = min (2 : ℝ) 2 ∧
    (arcBound ⟨⟨1, 2⟩, ⟨1, 2⟩, 3, 4, 0, false, false⟩).bottom = max (2 : ℝ) 2 :=
  arcBound_degenerate ⟨⟨1, 2⟩, ⟨1, 2⟩, 3, 4, 0, false, false⟩
    (Or.inr (Or.inr ⟨rfl, rfl⟩))

/-- C8: for every arc, the rectangle returned by arcBound contains both
endpoints. -/
theorem arcBound_contains_endpoints (arc : Arc) :
    (arcBound arc).left ≤ arc.start.x ∧ arc.start.x ≤ (arcBound arc).right ∧
    (arcBound arc).left ≤ arc.«end».x ∧ arc.«end».x ≤ (arcBound arc).right ∧
    (arcBound arc).top ≤ arc.start.y ∧ arc.start.y ≤ (arcBound arc).bottom ∧
    (arcBound arc).top ≤ arc.«end».y ∧ arc.«end».y ≤ (arcBound arc).bottom := by
  unfold arcBound
  by_cases h : arc.rx = 0 ∨ arc.ry = 0 ∨
      (arc.start.x = arc.«end».x ∧ arc.start.y = arc.«end».y)
  · rw [if_pos h]
    exact ⟨min_le_left _ _, le_max_left _ _, min_le_right _ _, le_max_right _ _,
      min_le_left _ _, le_max_left _ _, min_le_right _ _, le_max_right _ _⟩
  · rw [if_neg h]
    exact ⟨listMin_le_of_mem (start_x_mem_extremaXs arc),
      le_listMax_of_mem (start_x_mem_extremaXs arc),
      listMin_le_of_mem (end_x_mem_extremaXs arc),
      le_listMax_of_mem (end_x_mem_extremaXs arc),
      listMin_le_of_mem (start_y_mem_extremaYs arc),
      le_listMax_of_mem (start_y_mem_extremaYs arc),
      listMin_le_of_mem (end_y_mem_extremaYs arc),
      le_listMax_of_mem (end_y_mem_extremaYs arc)⟩

theorem rxA_pos (arc : Arc) (h : arc.rx ≠ 0) : 0 < rxA arc := abs_pos.mpr h

theorem ryA_pos (arc : Arc) (h : arc.ry ≠ 0) : 0 < ryA arc := abs_pos.mpr h

theorem rxA_le_rxC (arc : Arc) : rxA arc ≤ rxC arc := by
  unfold rxC
  by_cases h : 1 < sqrtLambda arc
  · rw [if_pos h]
    exact le_mul_of_one_le_left (abs_nonneg arc.rx) h.le
  · rw [if_neg h]

theorem ryA_le_ryC (arc : Arc) : ryA arc ≤ ryC arc := by
  unfold ryC
  by_cases h : 1 < sqrtLambda arc
  · rw [if_pos h]
    exact le_mul_of_one_le_left (abs_nonneg arc.ry) h.le
  · rw [if_neg h]

theorem rxC_pos (arc : Arc) (h : arc.rx ≠ 0) : 0 < rxC arc :=
  lt_of_lt_of_le (rxA_pos arc h) (rxA_le_rxC arc)

theorem ryC_pos (arc : Arc) (h : arc.ry ≠ 0) : 0 < ryC arc :=
  lt_of_lt_of_le (ryA_pos arc h) (ryA_le_ryC arc)

/-- C10: for nonzero input radii the radii returned by convertArcParams
are each at least the absolute value of the corresponding input radius. -/
theorem convertArcParams_radii_not_shrunk (arc : Arc)
    (hrx : arc.rx ≠ 0) (hry : arc.ry ≠ 0) :
    |arc.rx| ≤ (convertArcParams arc).rx ∧
    |arc.ry| ≤ (convertArcParams arc).ry := by
  rw [convertArcParams_main_eq arc (by tauto)]
  exact ⟨rxA_le_rxC arc, ryA_le_ryC arc⟩

/-- Witness for C10 at the quarter circle arc from (-1,0) to (0,-1) with
unit radii. -/
theorem convertArcParams_radii_not_shrunk_witness :
    |(-1 : ℝ)| ≤ (convertArcParams ⟨⟨-1, 0⟩, ⟨0, -1⟩, -1, 1, 0, false, false⟩).rx ∧
    |(1 : ℝ)| ≤ (convertArcParams ⟨⟨-1, 0⟩, ⟨0, -1⟩, -1, 1, 0, false, false⟩).ry :=
  convertArcParams_radii_not_shrunk ⟨⟨-1, 0⟩, ⟨0, -1⟩, -1, 1, 0, false, false⟩
    (by norm_num) (by norm_num)

theorem x1p_of_rotation_zero (arc : Arc) (h : arc.rotation = 0) :
    x1p arc = dx2 arc := by
  simp [x1p, phi_of_rotation_zero arc h]

theorem y1p_of_rotation_zero (arc : Arc) (h : arc.rotation = 0) :
    y1p arc = dy2 arc := by
  simp [y1p, phi_of_rotation_zero arc h]

theorem sqrtLambda_mul_self (arc : Arc) :
    sqrtLambda arc * sqrtLambda arc =
      x1p arc * x1p arc / (rxA arc * rxA arc)
        + y1p arc * y1p arc / (ryA arc * ryA arc) :=
  Real.mul_self_sqrt
    (add_nonneg (div_nonneg (mul_self_nonneg _) (mul_self_nonneg _))
      (div_nonneg (mul_self_nonneg _) (mul_self_nonneg _)))

/-- C5: when the given radii are too small to connect the endpoints, that
is when sqrtLambda exceeds one, the corrected radii returned by
convertArcParams put the rotated half difference vector exactly on the
unit level set. -/
theorem convertArcParams_radii_correction (arc : Arc)
    (hrx : arc.rx ≠ 0) (hry : arc.ry ≠ 0) (hs : 1 < sqrtLambda arc) :
    Real.sqrt (x1p arc * x1p arc /
        ((convertArcParams arc).rx * (convertArcParams arc).rx)
      + y1p arc * y1p arc /
        ((convertArcParams arc).ry * (convertArcParams arc).ry)) = 1 := by
  rw [convertArcParams_main_eq arc (by tauto)]
  show Real.sqrt (x1p arc * x1p arc / (rxC arc * rxC arc)
      + y1p arc * y1p arc / (ryC arc * ryC arc)) = 1
  unfold rxC ryC
  rw [if_pos hs, if_pos hs]
  have hs0 : (0 : ℝ) < sqrtLambda arc := lt_trans one_pos hs
  have hrxA := rxA_pos arc hrx
  have hryA := ryA_pos arc hry
  have key : x1p arc * x1p arc /
        (sqrtLambda arc * rxA arc * (sqrtLambda arc * rxA arc))
      + y1p arc * y1p arc /
        (sqrtLambda arc * ryA arc * (sqrtLambda arc * ryA arc)) =
      (x1p arc * x1p arc / (rxA arc * rxA arc)
        + y1p arc * y1p arc / (ryA arc * ryA arc))
        / (sqrtLambda arc * sqrtLambda arc) := by
    field_simp
    ring
  rw [key, ← sqrtLambda_mul_self arc,
    div_self (ne_of_gt (mul_pos hs0 hs0)), Real.sqrt_one]

theorem sqrtLambda_correction_witness_eval :
    sqrtLambda ⟨⟨-1, 0⟩, ⟨1, 0⟩, 1/2, 1/2, 0, false, false⟩ = 2 := by
  have h1 : x1p ⟨⟨-1, 0⟩, ⟨1, 0⟩, 1/2, 1/2, 0, false, false⟩ = -1 := by
    rw [x1p_of_rotation_zero _ rfl]
    norm_num [dx2]
  have h2 : y1p ⟨⟨-1, 0⟩, ⟨1, 0⟩, 1/2, 1/2, 0, false, false⟩ = 0 := by
    rw [y1p_of_rotation_zero _ rfl]
    norm_num [dy2]
  unfold sqrtLambda
  rw [h1, h2]
  norm_num [rxA, ryA, abs_div, abs_one, abs_two]
  rw [show (4 : ℝ) = 2 ^ 2 by norm_num, Real.sqrt_sq (by norm_num : (0 : ℝ) ≤ 2)]

/-- Witness for C5 at the arc from (-1,0) to (1,0) with radii 1/2, whose
sqrtLambda is 2. -/
theorem convertArcParams_radii_correction_witness :
    Real.sqrt (x1p ⟨⟨-1, 0⟩, ⟨1, 0⟩, 1/2, 1/2, 0, false, false⟩ *
        x1p ⟨⟨-1, 0⟩, ⟨1, 0⟩, 1/2, 1/2, 0, false, false⟩ /
        ((convertArcParams ⟨⟨-1, 0⟩, ⟨1, 0⟩, 1/2, 1/2, 0, false, false⟩).rx *
          (convertArcParams ⟨⟨-1, 0⟩, ⟨1, 0⟩, 1/2, 1/2, 0, false, false⟩).rx)
      + y1p ⟨⟨-1, 0⟩, ⟨1, 0⟩, 1/2, 1/2, 0, false, false⟩ *
        y1p ⟨⟨-1, 0⟩, ⟨1, 0⟩, 1/2, 1/2, 0, false, false⟩ /
        ((convertArcParams ⟨⟨-1, 0⟩, ⟨1, 0⟩, 1/2, 1/2, 0, false, false⟩).ry *
          (convertArcParams ⟨⟨-1, 0⟩, ⟨1, 0⟩, 1/2, 1/2, 0, false, false⟩).ry)) = 1 :=
  convertArcParams_radii_correction ⟨⟨-1, 0⟩, ⟨1, 0⟩, 1/2, 1/2, 0, false, false⟩
    (by norm_num) (by norm_num)
    (by rw [sqrtLambda_correction_witness_eval]; norm_num)

theorem convertArcParams_arcA :
    convertArcParams ⟨⟨-1, 0⟩, ⟨0, -1⟩, 1, 1, 0, false, false⟩ =
      ⟨0, 1, 1, -1, -1, Real.pi / 2, -(Real.pi / 2)⟩ := by
  have hrot : phi ⟨⟨-1, 0⟩, ⟨0, -1⟩, 1, 1, 0, false, false⟩ = 0 :=
    phi_of_rotation_zero _ rfl
  have hx1p : x1p ⟨⟨-1, 0⟩, ⟨0, -1⟩, 1, 1, 0, false, false⟩ = -(1/2) := by
    rw [x1p_of_rotation_zero _ rfl]
    norm_num [dx2]
  have hy1p : y1p ⟨⟨-1, 0⟩, ⟨0, -1⟩, 1, 1, 0, false, false⟩ = 1/2 := by
    rw [y1p_of_rotation_zero _ rfl]
    norm_num [dy2]
  have hrxA : rxA ⟨⟨-1, 0⟩, ⟨0, -1⟩, 1, 1, 0, false, false⟩ = 1 := by
    norm_num [rxA]
  have hryA : ryA ⟨⟨-1, 0⟩, ⟨0, -1⟩, 1, 1, 0, false, false⟩ = 1 := by
    norm_num [ryA]
  have hsl : sqrtLambda ⟨⟨-1, 0⟩, ⟨0, -1⟩, 1, 1, 0, false, false⟩ =
      Real.sqrt (1/2) := by
    unfold sqrtLambda
    rw [hx1p, hy1p, hrxA, hryA]
    norm_num
  have hnotlt : ¬ (1 < sqrtLambda ⟨⟨-1, 0⟩, ⟨0, -1⟩, 1, 1, 0, false, false⟩) := by
    rw [hsl]
    have h := Real.sqrt_le_sqrt (show (1:ℝ)/2 ≤ 1 by norm_num)
    rw [Real.sqrt_one] at h
    exact not_lt.mpr h
  have hrxC : rxC ⟨⟨-1, 0⟩, ⟨0, -1⟩, 1, 1, 0, false, false⟩ = 1 := by
    unfold rxC
    rw [if_neg hnotlt, hrxA]
  have hryC : ryC ⟨⟨-1, 0⟩, ⟨0, -1⟩, 1, 1, 0, false, false⟩ = 1 := by
    unfold ryC
    rw [if_neg hnotlt, hryA]
  have hcFA : cFactorA ⟨⟨-1, 0⟩, ⟨0, -1⟩, 1, 1, 0, false, false⟩ = 1/2 := by
    unfold cFactorA
    rw [hrxC, hryC, hx1p, hy1p]
    norm_num [max_def]
  have hcD : cDenom ⟨⟨-1, 0⟩, ⟨0, -1⟩, 1, 1, 0, false, false⟩ = 1/2 := by
    unfold cDenom
    rw [hrxC, hryC, hx1p, hy1p]
    norm_num
  have hcF : cFactor ⟨⟨-1, 0⟩, ⟨0, -1⟩, 1, 1, 0, false, false⟩ = -1 := by
    unfold cFactor
    rw [hcFA, hcD]
    norm_num [Real.sqrt_one]
  have hcxp : cxp ⟨⟨-1, 0⟩, ⟨0, -1⟩, 1, 1, 0, false, false⟩ = -(1/2) := by
    unfold cxp
    rw [hcF, hrxC, hy1p, hryC]
    norm_num
  have hcyp : cyp ⟨⟨-1, 0⟩, ⟨0, -1⟩, 1, 1, 0, false, false⟩ = -(1/2) := by
    unfold cyp
    rw [hcF, hryC, hx1p, hrxC]
    norm_num
  have hcx : cx ⟨⟨-1, 0⟩, ⟨0, -1⟩, 1, 1, 0, false, false⟩ = -1 := by
    unfold cx
    rw [hrot, hcxp, hcyp]
    norm_num [Real.cos_zero, Real.sin_zero]
  have hcy : cy ⟨⟨-1, 0⟩, ⟨0, -1⟩, 1, 1, 0, false, false⟩ = -1 := by
    unfold cy
    rw [hrot, hcxp, hcyp]
    norm_num [Real.cos_zero, Real.sin_zero]
  have hv1 : vec1 ⟨⟨-1, 0⟩, ⟨0, -1⟩, 1, 1, 0, false, false⟩ = ⟨0, 1⟩ := by
    unfold vec1
    rw [hx1p, hcxp, hy1p, hcyp, hrxC, hryC]
    norm_num [Vector.mk.injEq]
  have hv2 : vec2 ⟨⟨-1, 0⟩, ⟨0, -1⟩, 1, 1, 0, false, false⟩ = ⟨1, 0⟩ := by
    unfold vec2
    rw [hx1p, hcxp, hy1p, hcyp, hrxC, hryC]
    norm_num [Vector.mk.injEq]
  have hnorm10 : norm (⟨1, 0⟩ : Vector) = 1 := by
    unfold norm
    norm_num [Real.sqrt_one]
  have hnorm01 : norm (⟨0, 1⟩ : Vector) = 1 := by
    unfold norm
    norm_num [Real.sqrt_one]
  have hth1 : theta1 ⟨⟨-1, 0⟩, ⟨0, -1⟩, 1, 1, 0, false, false⟩ = Real.pi / 2 := by
    unfold theta1
    rw [hv1]
    unfold angle
    rw [hnorm10, hnorm01]
    norm_num [Real.arccos_zero]
  have hraw : dthetaRaw ⟨⟨-1, 0⟩, ⟨0, -1⟩, 1, 1, 0, false, false⟩ =
      -(Real.pi / 2) := by
    unfold dthetaRaw
    rw [hv1, hv2]
    unfold angle
    rw [hnorm01, hnorm10]
    norm_num [Real.arccos_zero]
  have hdt : dtheta ⟨⟨-1, 0⟩, ⟨0, -1⟩, 1, 1, 0, false, false⟩ =
      -(Real.pi / 2) := by
    unfold dtheta
    rw [hraw]
    have h1 : ¬ ((⟨⟨-1, 0⟩, ⟨0, -1⟩, 1, 1, 0, false, false⟩ : Arc).sweep = false ∧
        (0 : ℝ) < -(Real.pi / 2)) := by
      rintro ⟨-, h⟩
      nlinarith [Real.pi_pos]
    have h2 : ¬ ((⟨⟨-1, 0⟩, ⟨0, -1⟩, 1, 1, 0, false, false⟩ : Arc).sweep = true ∧
        -(Real.pi / 2) < 0) := by
      rintro ⟨h, -⟩
      simp at h
    rw [if_neg h1, if_neg h2]
  rw [convertArcParams_main_eq _ (by norm_num)]
  rw [hrot, hrxC, hryC, hcx, hcy, hth1, hdt]

/-- C2: for the arc from (-1,0) to (0,-1) with unit radii, no rotation and
both flags false, convertArcParams returns phi 0, radii 1, center (-1,-1),
start angle a positive quarter turn and delta a negative quarter turn,
within absolute tolerance 1e-9 (the embedding gives the values exactly). -/
theorem convertArcParams_scenarioA :
    |(convertArcParams ⟨⟨-1, 0⟩, ⟨0, -1⟩, 1, 1, 0, false, false⟩).phi - 0| ≤ 1e-9 ∧
    |(convertArcParams ⟨⟨-1, 0⟩, ⟨0, -1⟩, 1, 1, 0, false, false⟩).rx - 1| ≤ 1e-9 ∧
    |(convertArcParams ⟨⟨-1, 0⟩, ⟨0, -1⟩, 1, 1, 0, false, false⟩).ry - 1| ≤ 1e-9 ∧
    |(convertArcParams ⟨⟨-1, 0⟩, ⟨0, -1⟩, 1, 1, 0, false, false⟩).cx - (-1)| ≤ 1e-9 ∧
    |(convertArcParams ⟨⟨-1, 0⟩, ⟨0, -1⟩, 1, 1, 0, false, false⟩).cy - (-1)| ≤ 1e-9 ∧
    |(convertArcParams ⟨⟨-1, 0⟩, ⟨0, -1⟩, 1, 1, 0, false, false⟩).theta1 -
      Real.pi / 2| ≤ 1e-9 ∧
    |(convertArcParams ⟨⟨-1, 0⟩, ⟨0, -1⟩, 1, 1, 0, false, false⟩).dtheta -
      (-(Real.pi / 2))| ≤ 1e-9 := by
  rw [convertArcParams_arcA]
  norm_num

theorem xCandidate_none (arc : Arc) (offset : ℝ)
    (h : ¬ (0 < ((thetaExtremaX arc + offset) - (convertArcParams arc).theta1) /
        (convertArcParams arc).dtheta ∧
      ((thetaExtremaX arc + offset) - (convertArcParams arc).theta1) /
        (convertArcParams arc).dtheta < 1)) :
    xCandidate arc offset = none := by
  unfold xCandidate
  exact if_neg h

theorem yCandidate_none (arc : Arc) (offset : ℝ)
    (h : ¬ (0 < ((thetaExtremaY arc + offset) - (convertArcParams arc).theta1) /
        (convertArcParams arc).dtheta ∧
      ((thetaExtremaY arc + offset) - (convertArcParams arc).theta1) /
        (convertArcParams arc).dtheta < 1)) :
    yCandidate arc offset = none := by
  unfold yCandidate
  exact if_neg h

theorem thetaExtremaX_arcA :
    thetaExtremaX ⟨⟨-1, 0⟩, ⟨0, -1⟩, 1, 1, 0, false, false⟩ = 0 := by
  unfold thetaExtremaX
  rw [convertArcParams_arcA]
  norm_num [Real.sin_zero, Real.cos_zero, Real.arctan_zero]

theorem thetaExtremaY_arcA :
    thetaExtremaY ⟨⟨-1, 0⟩, ⟨0, -1⟩, 1, 1, 0, false, false⟩ = Real.pi / 2 := by
  unfold thetaExtremaY
  rw [convertArcParams_arcA]
  norm_num [Real.sin_zero, Real.cos_zero]

theorem negHalfPi_ne_zero : -(Real.pi / 2) ≠ 0 :=
  neg_ne_zero.mpr (div_ne_zero Real.pi_ne_zero two_ne_zero)

theorem extremaXs_arcA :
    extremaXs ⟨⟨-1, 0⟩, ⟨0, -1⟩, 1, 1, 0, false, false⟩ = [-1, 0] := by
  have h1 : xCandidate ⟨⟨-1, 0⟩, ⟨0, -1⟩, 1, 1, 0, false, false⟩
      (-(2 * Real.pi)) = none := by
    refine xCandidate_none _ _ ?_
    rw [thetaExtremaX_arcA, convertArcParams_arcA]
    show ¬ (0 < ((0 + -(2 * Real.pi)) - Real.pi / 2) / (-(Real.pi / 2)) ∧
      ((0 + -(2 * Real.pi)) - Real.pi / 2) / (-(Real.pi / 2)) < 1)
    rw [show ((0 + -(2 * Real.pi)) - Real.pi / 2) / (-(Real.pi / 2)) = 5 from by
      rw [div_eq_iff negHalfPi_ne_zero]; ring]
    norm_num
  have h2 : xCandidate ⟨⟨-1, 0⟩, ⟨0, -1⟩, 1, 1, 0, false, false⟩
      (-Real.pi) = none := by
    refine xCandidate_none _ _ ?_
    rw [thetaExtremaX_arcA, convertArcParams_arcA]
    show ¬ (0 < ((0 + -Real.pi) - Real.pi / 2) / (-(Real.pi / 2)) ∧
      ((0 + -Real.pi) - Real.pi / 2) / (-(Real.pi / 2)) < 1)
    rw [show ((0 + -Real.pi) - Real.pi / 2) / (-(Real.pi / 2)) = 3 from by
      rw [div_eq_iff negHalfPi_ne_zero]; ring]
    norm_num
  have h3 : xCandidate ⟨⟨-1, 0⟩, ⟨0, -1⟩, 1, 1, 0, false, false⟩ 0 = none := by
    refine xCandidate_none _ _ ?_
    rw [thetaExtremaX_arcA, convertArcParams_arcA]
    show ¬ (0 < ((0 + 0) - Real.pi / 2) / (-(Real.pi / 2)) ∧
      ((0 + 0) - Real.pi / 2) / (-(Real.pi / 2)) < 1)
    rw [show ((0 + 0) - Real.pi / 2) / (-(Real.pi / 2)) = 1 from by
      rw [div_eq_iff negHalfPi_ne_zero]; ring]
    norm_num
  have h4 : xCandidate ⟨⟨-1, 0⟩, ⟨0, -1⟩, 1, 1, 0, false, false⟩
      Real.pi = none := by
    refine xCandidate_none _ _ ?_
    rw [thetaExtremaX_arcA, convertArcParams_arcA]
    show ¬ (0 < ((0 + Real.pi) - Real.pi / 2) / (-(Real.pi / 2)) ∧
      ((0 + Real.pi) - Real.pi / 2) / (-(Real.pi / 2)) < 1)
    rw [show ((0 + Real.pi) - Real.pi / 2) / (-(Real.pi / 2)) = -1 from by
      rw [div_eq_iff negHalfPi_ne_zero]; ring]
    norm_num
  have h5 : xCandidate ⟨⟨-1, 0⟩, ⟨0, -1⟩, 1, 1, 0, false, false⟩
      (2 * Real.pi) = none := by
    refine xCandidate_none _ _ ?_
    rw [thetaExtremaX_arcA, convertArcParams_arcA]
    show ¬ (0 < ((0 + 2 * Real.pi) - Real.pi / 2) / (-(Real.pi / 2)) ∧
      ((0 + 2 * Real.pi) - Real.pi / 2) / (-(Real.pi / 2)) < 1)
    rw [show ((0 + 2 * Real.pi) - Real.pi / 2) / (-(Real.pi / 2)) = -3 from by
      rw [div_eq_iff negHalfPi_ne_zero]; ring]
    norm_num
  show [(-1 : ℝ), 0] ++
      offsets.filterMap (xCandidate ⟨⟨-1, 0⟩, ⟨0, -1⟩, 1, 1, 0, false, false⟩) =
      [-1, 0]
  rw [offsets]
  simp [List.filterMap_cons, h1, h2, h3, h4, h5]

theorem extremaYs_arcA :
    extremaYs ⟨⟨-1, 0⟩, ⟨0, -1⟩, 1, 1, 0, false, false⟩ = [0, -1] := by
  have h1 : yCandidate ⟨⟨-1, 0⟩, ⟨0, -1⟩, 1, 1, 0, false, false⟩
      (-(2 * Real.pi)) = none := by
    refine yCandidate_none _ _ ?_
    rw [thetaExtremaY_arcA, convertArcParams_arcA]
    show ¬ (0 < ((Real.pi / 2 + -(2 * Real.pi)) - Real.pi / 2) / (-(Real.pi / 2)) ∧
      ((Real.pi / 2 + -(2 * Real.pi)) - Real.pi / 2) / (-(Real.pi / 2)) < 1)
    rw [show ((Real.pi / 2 + -(2 * Real.pi)) - Real.pi / 2) / (-(Real.pi / 2)) = 4
      from by rw [div_eq_iff negHalfPi_ne_zero]; ring]
    norm_num
  have h2 : yCandidate ⟨⟨-1, 0⟩, ⟨0, -1⟩, 1, 1, 0, false, false⟩
      (-Real.pi) = none := by
    refine yCandidate_none _ _ ?_
    rw [thetaExtremaY_arcA, convertArcParams_arcA]
    show ¬ (0 < ((Real.pi / 2 + -Real.pi) - Real.pi / 2) / (-(Real.pi / 2)) ∧
      ((Real.pi / 2 + -Real.pi) - Real.pi / 2) / (-(Real.pi / 2)) < 1)
    rw [show ((Real.pi / 2 + -Real.pi) - Real.pi / 2) / (-(Real.pi / 2)) = 2
      from by rw [div_eq_iff negHalfPi_ne_zero]; ring]
    norm_num
  have h3 : yCandidate ⟨⟨-1, 0⟩, ⟨0, -1⟩, 1, 1, 0, false, false⟩ 0 = none := by
    refine yCandidate_none _ _ ?_
    rw [thetaExtremaY_arcA, convertArcParams_arcA]
    show ¬ (0 < ((Real.pi / 2 + 0) - Real.pi / 2) / (-(Real.pi / 2)) ∧
      ((Real.pi / 2 + 0) - Real.pi / 2) / (-(Real.pi / 2)) < 1)
    rw [show ((Real.pi / 2 + 0) - Real.pi / 2) / (-(Real.pi / 2)) = 0
      from by rw [div_eq_iff negHalfPi_ne_zero]; ring]
    norm_num
  have h4 : yCandidate ⟨⟨-1, 0⟩, ⟨0, -1⟩, 1, 1, 0, false, false⟩
      Real.pi = none := by
    refine yCandidate_none _ _ ?_
    rw [thetaExtremaY_arcA, convertArcParams_arcA]
    show ¬ (0 < ((Real.pi / 2 + Real.pi) - Real.pi / 2) / (-(Real.pi / 2)) ∧
      ((Real.pi / 2 + Real.pi) - Real.pi / 2) / (-(Real.pi / 2)) < 1)
    rw [show ((Real.pi / 2 + Real.pi) - Real.pi / 2) / (-(Real.pi / 2)) = -2
      from by rw [div_eq_iff negHalfPi_ne_zero]; ring]
    norm_num
  have h5 : yCandidate ⟨⟨-1, 0⟩, ⟨0, -1⟩, 1, 1, 0, false, false⟩
      (2 * Real.pi) = none := by
    refine yCandidate_none _ _ ?_
    rw [thetaExtremaY_arcA, convertArcParams_arcA]
    show ¬ (0 < ((Real.pi / 2 + 2 * Real.pi) - Real.pi / 2) / (-(Real.pi / 2)) ∧
      ((Real.pi / 2 + 2 * Real.pi) - Real.pi / 2) / (-(Real.pi / 2)) < 1)
    rw [show ((Real.pi / 2 + 2 * Real.pi) - Real.pi / 2) / (-(Real.pi / 2)) = -4
      from by rw [div_eq_iff negHalfPi_ne_zero]; ring]
    norm_num
  show [(0 : ℝ), -1] ++
      offsets.filterMap (yCandidate ⟨⟨-1, 0⟩, ⟨0, -1⟩, 1, 1, 0, false, false⟩) =
      [0, -1]
  rw [offsets]
  simp [List.filterMap_cons, h1, h2, h3, h4, h5]

/-- C7: for the arc from (-1,0) to (0,-1) with unit radii, no rotation and
both flags false, arcBound returns exactly left -1, right 0, top -1,
bottom 0: the quarter arc extrema coincide with its endpoints. -/
theorem arcBound_scenarioB :
    (arcBound ⟨⟨-1, 0⟩, ⟨0, -1⟩, 1, 1, 0, false, false⟩).left = -1 ∧
    (arcBound ⟨⟨-1, 0⟩, ⟨0, -1⟩, 1, 1, 0, false, false⟩).right = 0 ∧
    (arcBound ⟨⟨-1, 0⟩, ⟨0, -1⟩, 1, 1, 0, false, false⟩).top = -1 ∧
    (arcBound ⟨⟨-1, 0⟩, ⟨0, -1⟩, 1, 1, 0, false, false⟩).bottom = 0 := by
  unfold arcBound
  rw [if_neg (by norm_num)]
  rw [extremaXs_arcA, extremaYs_arcA]
  norm_num [listMin, listMax, min_def, max_def]

theorem x1p_sq_add_y1p_sq (arc : Arc) :
    x1p arc * x1p arc + y1p arc * y1p arc =
      dx2 arc * dx2 arc + dy2 arc * dy2 arc := by
  have h := Real.sin_sq_add_cos_sq (phi arc)
  unfold x1p y1p
  linear_combination (dx2 arc * dx2 arc + dy2 arc * dy2 arc) * h

theorem x1p_y1p_ne_zero (arc : Arc)
    (hne : ¬ (arc.start.x = arc.«end».x ∧ arc.start.y = arc.«end».y)) :
    ¬ (x1p arc = 0 ∧ y1p arc = 0) := by
  rintro ⟨h1, h2⟩
  have hsum : dx2 arc * dx2 arc + dy2 arc * dy2 arc = 0 := by
    rw [← x1p_sq_add_y1p_sq arc, h1, h2]
    ring
  have hdx2 : dx2 arc * dx2 arc = 0 :=
    le_antisymm (by nlinarith [mul_self_nonneg (dy2 arc)]) (mul_self_nonneg _)
  have hdy2 : dy2 arc * dy2 arc = 0 :=
    le_antisymm (by nlinarith [mul_self_nonneg (dx2 arc)]) (mul_self_nonneg _)
  have hdx := mul_self_eq_zero.mp hdx2
  have hdy := mul_self_eq_zero.mp hdy2
  refine hne ⟨?_, ?_⟩
  · unfold dx2 at hdx
    linarith
  · unfold dy2 at hdy
    linarith

theorem cDenom_pos (arc : Arc) (hrx : arc.rx ≠ 0) (hry : arc.ry ≠ 0)
    (hne : ¬ (arc.start.x = arc.«end».x ∧ arc.start.y = arc.«end».y)) :
    0 < cDenom arc := by
  have hR := rxC_pos arc hrx
  have hS := ryC_pos arc hry
  unfold cDenom
  rcases not_and_or.mp (x1p_y1p_ne_zero arc hne) with h | h
  · have h1 : 0 < x1p arc * x1p arc := mul_self_pos.mpr h
    nlinarith [mul_pos (mul_pos hS hS) h1,
      mul_nonneg (mul_nonneg hR.le hR.le) (mul_self_nonneg (y1p arc))]
  · have h1 : 0 < y1p arc * y1p arc := mul_self_pos.mpr h
    nlinarith [mul_pos (mul_pos hR hR) h1,
      mul_nonneg (mul_nonneg hS.le hS.le) (mul_self_nonneg (x1p arc))]

theorem cDenom_le (arc : Arc) (hrx : arc.rx ≠ 0) (hry : arc.ry ≠ 0) :
    cDenom arc ≤ rxC arc * rxC arc * (ryC arc * ryC arc) := by
  have hrxA := (rxA_pos arc hrx).ne'
  have hryA := (ryA_pos arc hry).ne'
  have hS : sqrtLambda arc * sqrtLambda arc *
      (rxA arc * rxA arc * (ryA arc * ryA arc)) =
      x1p arc * x1p arc * (ryA arc * ryA arc)
        + y1p arc * y1p arc * (rxA arc * rxA arc) := by
    rw [sqrtLambda_mul_self arc]
    field_simp
  unfold cDenom rxC ryC
  by_cases hs : 1 < sqrtLambda arc
  · simp only [if_pos hs]
    apply le_of_eq
    linear_combination (-(sqrtLambda arc * sqrtLambda arc)) * hS
  · simp only [if_neg hs]
    have hs1 : sqrtLambda arc ≤ 1 := not_lt.mp hs
    have hs0 : 0 ≤ sqrtLambda arc := Real.sqrt_nonneg _
    have hss : sqrtLambda arc * sqrtLambda arc ≤ 1 := by nlinarith
    have hpos : 0 < rxA arc * rxA arc * (ryA arc * ryA arc) :=
      mul_pos (mul_pos (rxA_pos arc hrx) (rxA_pos arc hrx))
        (mul_pos (ryA_pos arc hry) (ryA_pos arc hry))
    nlinarith [hS, hss, hpos]

theorem cFactorA_eq (arc : Arc) (hrx : arc.rx ≠ 0) (hry : arc.ry ≠ 0) :
    cFactorA arc = rxC arc * rxC arc * (ryC arc * ryC arc) - cDenom arc := by
  unfold cFactorA
  rw [max_eq_right]
  · unfold cDenom
    ring
  · have h := cDenom_le arc hrx hry
    unfold cDenom at h
    linarith

theorem cFactor_mul_self (arc : Arc) (hrx : arc.rx ≠ 0) (hry : arc.ry ≠ 0)
    (hne : ¬ (arc.start.x = arc.«end».x ∧ arc.start.y = arc.«end».y)) :
    cFactor arc * cFactor arc =
      (rxC arc * rxC arc * (ryC arc * ryC arc) - cDenom arc) / cDenom arc := by
  have hD := cDenom_pos arc hrx hry hne
  have hq : (0 : ℝ) ≤ cFactorA arc / cDenom arc :=
    div_nonneg (le_max_left _ _) hD.le
  have hss := Real.mul_self_sqrt hq
  rw [cFactorA_eq arc hrx hry] at hss
  unfold cFactor
  rw [cFactorA_eq arc hrx hry]
  by_cases hb : arc.largeArc = arc.sweep
  · rw [if_pos hb]
    linear_combination hss
  · rw [if_neg hb]
    linear_combination hss

theorem cFactor_mul_self_mul_cDenom (arc : Arc) (hrx : arc.rx ≠ 0)
    (hry : arc.ry ≠ 0)
    (hne : ¬ (arc.start.x = arc.«end».x ∧ arc.start.y = arc.«end».y)) :
    cFactor arc * cFactor arc *
        (rxC arc * rxC arc * (y1p arc * y1p arc)
          + ryC arc * ryC arc * (x1p arc * x1p arc)) =
      rxC arc * rxC arc * (ryC arc * ryC arc)
        - (rxC arc * rxC arc * (y1p arc * y1p arc)
          + ryC arc * ryC arc * (x1p arc * x1p arc)) := by
  have hD := cDenom_pos arc hrx hry hne
  have hF := cFactor_mul_self arc hrx hry hne
  have hDdef : cDenom arc = rxC arc * rxC arc * (y1p arc * y1p arc)
      + ryC arc * ryC arc * (x1p arc * x1p arc) := rfl
  rw [← hDdef, hF]
  field_simp

theorem vec1_normSq (arc : Arc) (hrx : arc.rx ≠ 0) (hry : arc.ry ≠ 0)
    (hne : ¬ (arc.start.x = arc.«end».x ∧ arc.start.y = arc.«end».y)) :
    (vec1 arc).x * (vec1 arc).x + (vec1 arc).y * (vec1 arc).y = 1 := by
  have hR := (rxC_pos arc hrx).ne'
  have hS := (ryC_pos arc hry).ne'
  have hFD := cFactor_mul_self_mul_cDenom arc hrx hry hne
  unfold vec1 cxp cyp
  field_simp
  linear_combination (rxC arc * rxC arc * (ryC arc * ryC arc)) * hFD

theorem vec2_normSq (arc : Arc) (hrx : arc.rx ≠ 0) (hry : arc.ry ≠ 0)
    (hne : ¬ (arc.start.x = arc.«end».x ∧ arc.start.y = arc.«end».y)) :
    (vec2 arc).x * (vec2 arc).x + (vec2 arc).y * (vec2 arc).y = 1 := by
  have hR := (rxC_pos arc hrx).ne'
  have hS := (ryC_pos arc hry).ne'
  have hFD := cFactor_mul_self_mul_cDenom arc hrx hry hne
  unfold vec2 cxp cyp
  field_simp
  linear_combination (rxC arc * rxC arc * (ryC arc * ryC arc)) * hFD

theorem norm_vec1_eq_one (arc : Arc) (hrx : arc.rx ≠ 0) (hry : arc.ry ≠ 0)
    (hne : ¬ (arc.start.x = arc.«end».x ∧ arc.start.y = arc.«end».y)) :
    norm (vec1 arc) = 1 := by
  unfold norm
  rw [vec1_normSq arc hrx hry hne, Real.sqrt_one]

theorem norm_vec2_eq_one (arc : Arc) (hrx : arc.rx ≠ 0) (hry : arc.ry ≠ 0)
    (hne : ¬ (arc.start.x = arc.«end».x ∧ arc.start.y = arc.«end».y)) :
    norm (vec2 arc) = 1 := by
  unfold norm
  rw [vec2_normSq arc hrx hry hne, Real.sqrt_one]

theorem norm_e1_eq_one : norm (⟨1, 0⟩ : Vector) = 1 := by
  unfold norm
  norm_num [Real.sqrt_one]

theorem dot12_eq (arc : Arc) (hrx : arc.rx ≠ 0) (hry : arc.ry ≠ 0)
    (hne : ¬ (arc.start.x = arc.«end».x ∧ arc.start.y = arc.«end».y)) :
    (vec1 arc).x * (vec2 arc).x + (vec1 arc).y * (vec2 arc).y =
      1 - 2 * cDenom arc / (rxC arc * rxC arc * (ryC arc * ryC arc)) := by
  have hR := (rxC_pos arc hrx).ne'
  have hS := (ryC_pos arc hry).ne'
  have hFD := cFactor_mul_self_mul_cDenom arc hrx hry hne
  have hDdef : cDenom arc = rxC arc * rxC arc * (y1p arc * y1p arc)
      + ryC arc * ryC arc * (x1p arc * x1p arc) := rfl
  rw [hDdef]
  unfold vec1 vec2 cxp cyp
  field_simp
  linear_combination ((rxC arc * rxC arc * (ryC arc * ryC arc)) *
    (rxC arc * rxC arc * (ryC arc * ryC arc))) * hFD

theorem dot12_lt_one (arc : Arc) (hrx : arc.rx ≠ 0) (hry : arc.ry ≠ 0)
    (hne : ¬ (arc.start.x = arc.«end».x ∧ arc.start.y = arc.«end».y)) :
    (vec1 arc).x * (vec2 arc).x + (vec1 arc).y * (vec2 arc).y < 1 := by
  rw [dot12_eq arc hrx hry hne]
  have hD := cDenom_pos arc hrx hry hne
  have hP : 0 < rxC arc * rxC arc * (ryC arc * ryC arc) :=
    mul_pos (mul_pos (rxC_pos arc hrx) (rxC_pos arc hrx))
      (mul_pos (ryC_pos arc hry) (ryC_pos arc hry))
  have hdiv : 0 < 2 * cDenom arc / (rxC arc * rxC arc * (ryC arc * ryC arc)) :=
    div_pos (by linarith) hP
  linarith

theorem neg_one_le_dot12 (arc : Arc) (hrx : arc.rx ≠ 0) (hry : arc.ry ≠ 0)
    (hne : ¬ (arc.start.x = arc.«end».x ∧ arc.start.y = arc.«end».y)) :
    -1 ≤ (vec1 arc).x * (vec2 arc).x + (vec1 arc).y * (vec2 arc).y := by
  rw [dot12_eq arc hrx hry hne]
  have hP : 0 < rxC arc * rxC arc * (ryC arc * ryC arc) :=
    mul_pos (mul_pos (rxC_pos arc hrx) (rxC_pos arc hrx))
      (mul_pos (ryC_pos arc hry) (ryC_pos arc hry))
  have h1 : cDenom arc / (rxC arc * rxC arc * (ryC arc * ryC arc)) ≤ 1 :=
    (div_le_one hP).mpr (cDenom_le arc hrx hry)
  rw [mul_div_assoc]
  linarith

theorem dthetaRaw_cases (arc : Arc) (hrx : arc.rx ≠ 0) (hry : arc.ry ≠ 0)
    (hne : ¬ (arc.start.x = arc.«end».x ∧ arc.start.y = arc.«end».y)) :
    (0 < dthetaRaw arc ∧ dthetaRaw arc ≤ Real.pi) ∨
    (-Real.pi ≤ dthetaRaw arc ∧ dthetaRaw arc < 0) := by
  have hlt := dot12_lt_one arc hrx hry hne
  have hpos := Real.arccos_pos.mpr hlt
  have hle := Real.arccos_le_pi
    ((vec1 arc).x * (vec2 arc).x + (vec1 arc).y * (vec2 arc).y)
  unfold dthetaRaw angle
  rw [norm_vec1_eq_one arc hrx hry hne, norm_vec2_eq_one arc hrx hry hne,
    mul_one, div_one]
  by_cases hc : (vec1 arc).x * (vec2 arc).y - (vec1 arc).y * (vec2 arc).x < 0
  · rw [if_pos hc]
    right
    constructor <;> nlinarith
  · rw [if_neg hc]
    left
    constructor <;> nlinarith

theorem dtheta_neg_of_sweep_false (arc : Arc) (hrx : arc.rx ≠ 0)
    (hry : arc.ry ≠ 0)
    (hne : ¬ (arc.start.x = arc.«end».x ∧ arc.start.y = arc.«end».y))
    (hsw : arc.sweep = false) :
    -(2 * Real.pi) < (convertArcParams arc).dtheta ∧
      (convertArcParams arc).dtheta < 0 := by
  rw [convertArcParams_main_eq arc (by tauto)]
  show -(2 * Real.pi) < dtheta arc ∧ dtheta arc < 0
  have hπ := Real.pi_pos
  unfold dtheta
  rcases dthetaRaw_cases arc hrx hry hne with ⟨h1, h2⟩ | ⟨h1, h2⟩
  · rw [if_pos ⟨hsw, h1⟩]
    exact ⟨by linarith, by linarith⟩
  · have hc1 : ¬ (arc.sweep = false ∧ 0 < dthetaRaw arc) := by
      rintro ⟨-, h⟩
      linarith
    have hc2 : ¬ (arc.sweep = true ∧ dthetaRaw arc < 0) := by
      rintro ⟨h, -⟩
      rw [hsw] at h
      exact Bool.noConfusion h
    rw [if_neg hc1, if_neg hc2]
    exact ⟨by linarith, h2⟩

theorem dtheta_pos_of_sweep_true (arc : Arc) (hrx : arc.rx ≠ 0)
    (hry : arc.ry ≠ 0)
    (hne : ¬ (arc.start.x = arc.«end».x ∧ arc.start.y = arc.«end».y))
    (hsw : arc.sweep = true) :
    0 < (convertArcParams arc).dtheta ∧
      (convertArcParams arc).dtheta < 2 * Real.pi := by
  rw [convertArcParams_main_eq arc (by tauto)]
  show 0 < dtheta arc ∧ dtheta arc < 2 * Real.pi
  have hπ := Real.pi_pos
  unfold dtheta
  rcases dthetaRaw_cases arc hrx hry hne with ⟨h1, h2⟩ | ⟨h1, h2⟩
  · have hc1 : ¬ (arc.sweep = false ∧ 0 < dthetaRaw arc) := by
      rintro ⟨h, -⟩
      rw [hsw] at h
      exact Bool.noConfusion h
    have hc2 : ¬ (arc.sweep = true ∧ dthetaRaw arc < 0) := by
      rintro ⟨-, h⟩
      linarith
    rw [if_neg hc1, if_neg hc2]
    exact ⟨h1, by linarith⟩
  · have hc1 : ¬ (arc.sweep = false ∧ 0 < dthetaRaw arc) := by
      rintro ⟨h, -⟩
      rw [hsw] at h
      exact Bool.noConfusion h
    rw [if_neg hc1, if_pos ⟨hsw, h2⟩]
    exact ⟨by linarith, by linarith⟩

theorem convDefined_of_ne (arc : Arc) (hrx : arc.rx ≠ 0) (hry : arc.ry ≠ 0)
    (hne : ¬ (arc.start.x = arc.«end».x ∧ arc.start.y = arc.«end».y)) :
    ConvDefined arc := by
  refine Or.inr (Or.inr ⟨(cDenom_pos arc hrx hry hne).ne',
    (rxC_pos arc hrx).ne', (ryC_pos arc hry).ne', ?_, ?_, ?_, ?_⟩)
  · rw [norm_vec1_eq_one arc hrx hry hne]
    exact one_ne_zero
  · rw [norm_vec2_eq_one arc hrx hry hne]
    exact one_ne_zero
  · rw [norm_e1_eq_one, norm_vec1_eq_one arc hrx hry hne, one_mul, zero_mul,
      add_zero, one_mul]
    have hsq := vec1_normSq arc hrx hry hne
    have h1 : (vec1 arc).x * (vec1 arc).x ≤ 1 := by
      nlinarith [mul_self_nonneg (vec1 arc).y]
    rw [abs_le]
    constructor <;> nlinarith
  · rw [norm_vec1_eq_one arc hrx hry hne, norm_vec2_eq_one arc hrx hry hne,
      one_mul]
    rw [abs_le]
    exact ⟨neg_one_le_dot12 arc hrx hry hne, (dot12_lt_one arc hrx hry hne).le⟩

theorem coincident_not_defined :
    ¬ ConvDefined ⟨⟨0, 0⟩, ⟨0, 0⟩, 1, 1, 0, false, false⟩ := by
  have hx : x1p ⟨⟨0, 0⟩, ⟨0, 0⟩, 1, 1, 0, false, false⟩ = 0 := by
    unfold x1p dx2 dy2
    norm_num
  have hy : y1p ⟨⟨0, 0⟩, ⟨0, 0⟩, 1, 1, 0, false, false⟩ = 0 := by
    unfold y1p dx2 dy2
    norm_num
  have hD : cDenom ⟨⟨0, 0⟩, ⟨0, 0⟩, 1, 1, 0, false, false⟩ = 0 := by
    unfold cDenom
    rw [hx, hy]
    ring
  rintro (h | h | ⟨hD', -⟩)
  · norm_num at h
  · norm_num at h
  · exact hD' hD

/-- C1 counterexample: the coincident arc from (0,0) to (0,0) with unit
radii lies in the documented input domain, yet the main branch of
convertArcParams divides by zero there (cDenom is zero, giving an infinite
center factor and then NaN center components under JavaScript number
semantics), so ConvDefined fails. -/
theorem no_nan_counterexample :
    (0 : ℝ) ≤ (⟨⟨0, 0⟩, ⟨0, 0⟩, 1, 1, 0, false, false⟩ : Arc).rx ∧
    (0 : ℝ) ≤ (⟨⟨0, 0⟩, ⟨0, 0⟩, 1, 1, 0, false, false⟩ : Arc).ry ∧
    ¬ ConvDefined ⟨⟨0, 0⟩, ⟨0, 0⟩, 1, 1, 0, false, false⟩ :=
  ⟨by norm_num, by norm_num, coincident_not_defined⟩

/-- C1 amended: for every arc in the documented domain, convertArcParams
produces defined (finite, non-NaN) values whenever a radius is zero or the
endpoints differ, and arcBound always produces defined values; the only
failure is convertArcParams at coincident endpoints with both radii
nonzero. -/
theorem arc_functions_defined (arc : Arc) (hrx : 0 ≤ arc.rx)
    (hry : 0 ≤ arc.ry) :
    ((arc.rx = 0 ∨ arc.ry = 0 ∨
        ¬ (arc.start.x = arc.«end».x ∧ arc.start.y = arc.«end».y)) →
      ConvDefined arc) ∧ BoundDefined arc := by
  constructor
  · intro h
    by_cases h1 : arc.rx = 0
    · exact Or.inl h1
    by_cases h2 : arc.ry = 0
    · exact Or.inr (Or.inl h2)
    have hne : ¬ (arc.start.x = arc.«end».x ∧ arc.start.y = arc.«end».y) := by
      tauto
    exact convDefined_of_ne arc h1 h2 hne
  · by_cases hg : arc.rx = 0 ∨ arc.ry = 0 ∨
        (arc.start.x = arc.«end».x ∧ arc.start.y = arc.«end».y)
    · exact Or.inl hg
    · rw [not_or, not_or] at hg
      refine Or.inr ⟨convDefined_of_ne arc hg.1 hg.2.1 hg.2.2, ?_, ?_⟩
      · rw [convertArcParams_main_eq arc (by tauto)]
        exact (rxC_pos arc hg.1).ne'
      · cases hb : arc.sweep
        · exact (dtheta_neg_of_sweep_false arc hg.1 hg.2.1 hg.2.2 hb).2.ne
        · exact (dtheta_pos_of_sweep_true arc hg.1 hg.2.1 hg.2.2 hb).1.ne'

/-- Witness for the amended C1 at the quarter circle arc from (-1,0) to
(0,-1) with unit radii. -/
theorem arc_functions_defined_witness :
    (((⟨⟨-1, 0⟩, ⟨0, -1⟩, 1, 1, 0, false, false⟩ : Arc).rx = 0 ∨
        (⟨⟨-1, 0⟩, ⟨0, -1⟩, 1, 1, 0, false, false⟩ : Arc).ry = 0 ∨
        ¬ ((⟨⟨-1, 0⟩, ⟨0, -1⟩, 1, 1, 0, false, false⟩ : Arc).start.x =
            (⟨⟨-1, 0⟩, ⟨0, -1⟩, 1, 1, 0, false, false⟩ : Arc).«end».x ∧
          (⟨⟨-1, 0⟩, ⟨0, -1⟩, 1, 1, 0, false, false⟩ : Arc).start.y =
            (⟨⟨-1, 0⟩, ⟨0, -1⟩, 1, 1, 0, false, false⟩ : Arc).«end».y)) →
      ConvDefined ⟨⟨-1, 0⟩, ⟨0, -1⟩, 1, 1, 0, false, false⟩) ∧
    BoundDefined ⟨⟨-1, 0⟩, ⟨0, -1⟩, 1, 1, 0, false, false⟩ :=
  arc_functions_defined ⟨⟨-1, 0⟩, ⟨0, -1⟩, 1, 1, 0, false, false⟩
    (by norm_num) (by norm_num)

/-- C4 counterexample: for the degenerate arc with rx = 0 from (0,0) to
(1,0), dtheta is pi no matter the sweep flag, so the non-negative dtheta
of the sweep-false arc does not become negative when the flag flips. -/
theorem sweep_flip_counterexample :
    0 ≤ (convertArcParams ⟨⟨0, 0⟩, ⟨1, 0⟩, 0, 1, 0, false, false⟩).dtheta ∧
    ¬ ((convertArcParams ⟨⟨0, 0⟩, ⟨1, 0⟩, 0, 1, 0, false, true⟩).dtheta < 0) := by
  rw [convertArcParams_degen_eq _ (Or.inl rfl),
    convertArcParams_degen_eq _ (Or.inl rfl)]
  exact ⟨Real.pi_nonneg, not_lt.mpr Real.pi_nonneg⟩

/-- C4 amended: for every arc with nonzero radii and distinct endpoints,
flipping the sweep flag while holding all other fields fixed flips the
sign relationship of dtheta relative to zero: a negative dtheta becomes
non-negative and a non-negative dtheta becomes negative.  (For a zero
radius dtheta is pi regardless of the flags, and at coincident endpoints
with nonzero radii the conversion is undefined.) -/
theorem sweep_flip_sign (arc : Arc) (hrx : arc.rx ≠ 0) (hry : arc.ry ≠ 0)
    (hne : ¬ (arc.start.x = arc.«end».x ∧ arc.start.y = arc.«end».y)) :
    ((convertArcParams arc).dtheta < 0 →
      0 ≤ (convertArcParams { arc with sweep := !arc.sweep }).dtheta) ∧
    (0 ≤ (convertArcParams arc).dtheta →
      (convertArcParams { arc with sweep := !arc.sweep }).dtheta < 0) := by
  rcases Bool.eq_false_or_eq_true arc.sweep with hb | hb
  · have h1 := dtheta_pos_of_sweep_true arc hrx hry hne hb
    have h2 := dtheta_neg_of_sweep_false { arc with sweep := !arc.sweep }
      hrx hry hne (by rw [hb]; rfl)
    exact ⟨fun h => absurd h (not_lt.mpr h1.1.le), fun _ => h2.2⟩
  · have h1 := dtheta_neg_of_sweep_false arc hrx hry hne hb
    have h2 := dtheta_pos_of_sweep_true { arc with sweep := !arc.sweep }
      hrx hry hne (by rw [hb]; rfl)
    exact ⟨fun _ => h2.1.le, fun h => absurd h (not_le.mpr h1.2)⟩

/-- Witness for the amended C4 at the quarter circle arc from (-1,0) to
(0,-1) with unit radii: its sweep-false dtheta is negative and flipping
the flag makes it non-negative. -/
theorem sweep_flip_sign_witness :
    ((convertArcParams ⟨⟨-1, 0⟩, ⟨0, -1⟩, 1, 1, 0, false, false⟩).dtheta < 0 →
      0 ≤ (convertArcParams ⟨⟨-1, 0⟩, ⟨0, -1⟩, 1, 1, 0, false, true⟩).dtheta) ∧
    (0 ≤ (convertArcParams ⟨⟨-1, 0⟩, ⟨0, -1⟩, 1, 1, 0, false, false⟩).dtheta →
      (convertArcParams ⟨⟨-1, 0⟩, ⟨0, -1⟩, 1, 1, 0, false, true⟩).dtheta < 0) :=
  sweep_flip_sign ⟨⟨-1, 0⟩, ⟨0, -1⟩, 1, 1, 0, false, false⟩ (by norm_num)
    (by norm_num) (by norm_num)

/-- C9 counterexample: the coincident arc with unit radii lies in the
documented domain, yet its conversion is undefined (NaN dtheta under
JavaScript number semantics), so the returned dtheta is not a real number
inside the open interval. -/
theorem dtheta_range_counterexample :
    (0 : ℝ) ≤ (⟨⟨0, 0⟩, ⟨0, 0⟩, 1, 1, 0, false, false⟩ : Arc).rx ∧
    (0 : ℝ) ≤ (⟨⟨0, 0⟩, ⟨0, 0⟩, 1, 1, 0, false, false⟩ : Arc).ry ∧
    ¬ (ConvDefined ⟨⟨0, 0⟩, ⟨0, 0⟩, 1, 1, 0, false, false⟩ ∧
      -(2 * Real.pi) <
        (convertArcParams ⟨⟨0, 0⟩, ⟨0, 0⟩, 1, 1, 0, false, false⟩).dtheta ∧
      (convertArcParams ⟨⟨0, 0⟩, ⟨0, 0⟩, 1, 1, 0, false, false⟩).dtheta <
        2 * Real.pi ∧
      (convertArcParams ⟨⟨0, 0⟩, ⟨0, 0⟩, 1, 1, 0, false, false⟩).dtheta ≠ 0) :=
  ⟨by norm_num, by norm_num, fun h => coincident_not_defined h.1⟩

/-- C9 amended: for every arc in the documented domain that has a zero
radius or distinct endpoints, the conversion is defined and the returned
dtheta lies strictly inside (-2 pi, 2 pi) and is never zero (the
degenerate zero-radius case returns pi by convention). -/
theorem dtheta_range (arc : Arc) (hrx : 0 ≤ arc.rx) (hry : 0 ≤ arc.ry)
    (h : arc.rx = 0 ∨ arc.ry = 0 ∨
      ¬ (arc.start.x = arc.«end».x ∧ arc.start.y = arc.«end».y)) :
    ConvDefined arc ∧
    -(2 * Real.pi) < (convertArcParams arc).dtheta ∧
    (convertArcParams arc).dtheta < 2 * Real.pi ∧
    (convertArcParams arc).dtheta ≠ 0 := by
  have hπ := Real.pi_pos
  by_cases h1 : arc.rx = 0 ∨ arc.ry = 0
  · rw [convertArcParams_degen_eq arc h1]
    refine ⟨?_, ?_, ?_, ?_⟩
    · rcases h1 with h1 | h1
      · exact Or.inl h1
      · exact Or.inr (Or.inl h1)
    · show -(2 * Real.pi) < Real.pi
      linarith
    · show Real.pi < 2 * Real.pi
      linarith
    · show Real.pi ≠ 0
      exact Real.pi_ne_zero
  · push_neg at h1
    have hne : ¬ (arc.start.x = arc.«end».x ∧ arc.start.y = arc.«end».y) := by
      tauto
    refine ⟨convDefined_of_ne arc h1.1 h1.2 hne, ?_⟩
    cases hb : arc.sweep
    · have hr := dtheta_neg_of_sweep_false arc h1.1 h1.2 hne hb
      exact ⟨hr.1, by linarith [hr.2], hr.2.ne⟩
    · have hr := dtheta_pos_of_sweep_true arc h1.1 h1.2 hne hb
      exact ⟨by linarith [hr.1], hr.2, hr.1.ne'⟩

/-- Witness for the amended C9 at the quarter circle arc from (-1,0) to
(0,-1) with unit radii. -/
theorem dtheta_range_witness :
    ConvDefined ⟨⟨-1, 0⟩, ⟨0, -1⟩, 1, 1, 0, false, false⟩ ∧
    -(2 * Real.pi) <
      (convertArcParams ⟨⟨-1, 0⟩, ⟨0, -1⟩, 1, 1, 0, false, false⟩).dtheta ∧
    (convertArcParams ⟨⟨-1, 0⟩, ⟨0, -1⟩, 1, 1, 0, false, false⟩).dtheta <
      2 * Real.pi ∧
    (convertArcParams ⟨⟨-1, 0⟩, ⟨0, -1⟩, 1, 1, 0, false, false⟩).dtheta ≠ 0 :=
  dtheta_range ⟨⟨-1, 0⟩, ⟨0, -1⟩, 1, 1, 0, false, false⟩ (by norm_num)
    (by norm_num) (by norm_num)

end

end ArcBound
